import Mathlib

/-
  Verification development for the `docker-prune` daemon (main.go).

  The program has two parts:
  * a cleanup executor (`runPrune` and the four prune helpers) that calls
    four engine prune capabilities in a fixed order, aggregating reclaimed
    bytes into a `uint64` running total and logging one summary per step;
  * a scheduling loop in `main` built from a `time.Ticker`, a capacity-1
    request channel (seeded with one request at startup), and a per-cycle
    `context.WithTimeout` deadline of `interval - time.Second`.

  Both parts are embedded shallowly below.  Docker's `filters.Args` is a
  struct holding a reference to a mutable map, so passing it by value
  aliases the map; we model that with an explicit heap of filter maps and
  handles (`Args.ref`) into it.  The serialize/reparse round trip used by
  `cloneArgs` (`filters.ToParam` / `filters.FromParam`, external library
  code) is modelled as an abstract codec returning a value together with an
  optional error, matching Go's `(value, error)` convention.
-/

/-- A filter map: the set of `key=value` criteria held by one
`filters.Args` value (Go: `map[string]map[string]bool`, i.e. a set of
key/value pairs). -/
abbrev FilterMap := List (String × String)

/-- A `filters.Args` value: a handle to a mutable filter map (the Go struct
holds a map reference, so struct copies alias the same map). -/
structure Args where
  ref : Nat
deriving DecidableEq, Repr

/-- The heap of filter maps that `Args` handles point into. -/
structure FHeap where
  cells : List FilterMap
deriving DecidableEq, Repr

def FHeap.read (h : FHeap) (a : Args) : FilterMap :=
  h.cells.getD a.ref []

/-- `Args.Add` on the underlying map: `fields[key][value] = true`
(set semantics: adding a pair that is already present changes nothing). -/
def addPair (m : FilterMap) (k v : String) : FilterMap :=
  if (k, v) ∈ m then m else m ++ [(k, v)]

/-- Mutate the map a handle points to, as Go's `newArgs.Add(key, value)`. -/
def FHeap.addFilter (h : FHeap) (a : Args) (k v : String) : FHeap :=
  ⟨h.cells.set a.ref (addPair (h.read a) k v)⟩

/-- Allocate a fresh filter map (as `filters.FromParam` building a new
`Args` with its own map). -/
def FHeap.alloc (h : FHeap) (m : FilterMap) : FHeap × Args :=
  (⟨h.cells ++ [m]⟩, ⟨h.cells.length⟩)

/-- The external serialize/reparse pair `filters.ToParam`/`filters.FromParam`
used by `cloneArgs`.  Each returns its Go result pair: a value and an
optional error. -/
structure Codec where
  toParam : FilterMap → String × Option String
  fromParam : String → FilterMap × Option String

/-- Library contract of the docker filters codec: a failing call returns
the zero value alongside its error (`ToParam` yields `""`, `FromParam`
yields an empty filter set), and reparsing the empty string succeeds with
an empty filter set. -/
def Codec.errZero (c : Codec) : Prop :=
  (∀ m, ((c.toParam m).2).isSome = true → (c.toParam m).1 = "") ∧
  ((c.fromParam "").1 = [] ∧ (c.fromParam "").2 = none) ∧
  (∀ s, ((c.fromParam s).2).isSome = true → (c.fromParam s).1 = [])

/-- main.go lines 129-133: serialize the filter set and reparse it into a
fresh `Args`, silently discarding the error of either step (`s, _ := ...`;
`newArgs, _ := ...`). -/
def cloneArgs (c : Codec) (h : FHeap) (pruneFilter : Args) : FHeap × Args :=
  let s := (c.toParam (h.read pruneFilter)).1
  let newMap := (c.fromParam s).1
  h.alloc newMap

/-- One engine prune report (docker's `*PruneReport`): the deleted entries
and the reclaimed byte count (`uint64`, so a value below `2 ^ 64`).  The
network report is given a byte field too so that "networks contribute zero
regardless of the engine's report" is expressible; the code ignores it. -/
structure PruneReport where
  deleted : List String
  spaceReclaimed : Nat
deriving DecidableEq, Repr

/-- The external container engine client: four independent prune
capabilities, each taking the filter map it receives and returning a
report or an engine-level error. -/
structure Engine where
  containersPrune : FilterMap → Except String PruneReport
  imagesPrune : FilterMap → Except String PruneReport
  networksPrune : FilterMap → Except String PruneReport
  volumesPrune : FilterMap → Except String PruneReport

inductive Op
  | containers
  | images
  | networks
  | volumes
deriving DecidableEq, Repr

/-- A record of one engine invocation: which capability was called and the
filter map it received. -/
structure Call where
  op : Op
  args : FilterMap
deriving DecidableEq, Repr

def containersMsg (n sp : Nat) : String :=
  "Deleted Containers: " ++ Nat.repr n ++ ", Reclaimed Space: " ++ Nat.repr sp

def imagesMsg (n sp : Nat) : String :=
  "Deleted Images: " ++ Nat.repr n ++ ", Reclaimed Space: " ++ Nat.repr sp

def networksMsg (n : Nat) : String :=
  "Deleted Networks: " ++ Nat.repr n

def volumesMsg (n sp : Nat) : String :=
  "Deleted Volumes: " ++ Nat.repr n ++ ", Reclaimed Space: " ++ Nat.repr sp

def totalMsg (total : Nat) : String :=
  "Total reclaimed space: " ++ Nat.repr total

/-- `fmt.Sprintf("%v", !all)` from main.go line 119. -/
def danglingVal (all : Bool) : String :=
  if all then "false" else "true"

/-- Type of the four prune helpers.  The Go signature is
`(ctx, cli, all, pruneFilter) → (uint64, string, error)`; the embedding
adds the codec and the filter heap, and records the engine invocations
made.  The success pair (bytes, summary) or the error is an `Except`. -/
abbrev PruneFn :=
  Engine → Codec → FHeap → Bool → Args → FHeap × List Call × Except String (Nat × String)

/-- main.go lines 93-99. -/
def pruneContainers : PruneFn := fun e _ h _ pruneFilter =>
  let m := h.read pruneFilter
  match e.containersPrune m with
  | .error err => (h, [⟨.containers, m⟩], .error err)
  | .ok r => (h, [⟨.containers, m⟩], .ok (r.spaceReclaimed, containersMsg r.deleted.length r.spaceReclaimed))

/-- main.go lines 101-107: the reclaimed-byte contribution is the literal
`0`, whatever the engine reports. -/
def pruneNetworks : PruneFn := fun e _ h _ pruneFilter =>
  let m := h.read pruneFilter
  match e.networksPrune m with
  | .error err => (h, [⟨.networks, m⟩], .error err)
  | .ok r => (h, [⟨.networks, m⟩], .ok (0, networksMsg r.deleted.length))

/-- main.go lines 109-115. -/
def pruneVolumes : PruneFn := fun e _ h _ pruneFilter =>
  let m := h.read pruneFilter
  match e.volumesPrune m with
  | .error err => (h, [⟨.volumes, m⟩], .error err)
  | .ok r => (h, [⟨.volumes, m⟩], .ok (r.spaceReclaimed, volumesMsg r.deleted.length r.spaceReclaimed))

/-- main.go lines 117-125: clone the filter set, add the derived
`dangling` criterion to the clone, and call the engine with the clone. -/
def pruneImages : PruneFn := fun e c h all pruneFilter =>
  let pr := cloneArgs c h pruneFilter
  let h2 := pr.1.addFilter pr.2 "dangling" (danglingVal all)
  let m := h2.read pr.2
  match e.imagesPrune m with
  | .error err => (h2, [⟨.images, m⟩], .error err)
  | .ok r => (h2, [⟨.images, m⟩], .ok (r.spaceReclaimed, imagesMsg r.deleted.length r.spaceReclaimed))

/-- main.go line 74-79. -/
def pruneFuncs : List PruneFn :=
  [pruneContainers, pruneImages, pruneNetworks, pruneVolumes]

/-- The loop of main.go lines 81-90: call each prune function in order,
abort on the first error, otherwise accumulate `total += spaceReclaimed`
(a `uint64`, hence the wrap at `2 ^ 64`), log each summary, and log the
total on full success.  Returns the final heap, the engine invocations
made, the log lines, and the cycle result. -/
def runPruneLoop :
    List PruneFn → Engine → Codec → FHeap → Bool → Args → Nat → List Call → List String →
      FHeap × List Call × List String × Except String Unit
  | [], _, _, h, _, _, total, calls, logs =>
      (h, calls, logs ++ [totalMsg total], .ok ())
  | f :: fs, e, c, h, all, a, total, calls, logs =>
      match f e c h all a with
      | (h1, cs, .error err) => (h1, calls ++ cs, logs, .error err)
      | (h1, cs, .ok (sp, out)) =>
          runPruneLoop fs e c h1 all a ((total + sp) % 2 ^ 64) (calls ++ cs) (logs ++ [out])

/-- main.go lines 73-91. -/
def runPrune (e : Engine) (c : Codec) (h : FHeap) (all : Bool) (pruneFilter : Args) :
    FHeap × List Call × List String × Except String Unit :=
  runPruneLoop pruneFuncs e c h all pruneFilter 0 [] []

/-
  Scheduler model (main.go lines 14-71).

  Time is in nanoseconds (`time.Duration` units); the cycle deadline is
  `interval - time.Second`, i.e. `interval - 1000000000` ns.

  The coordinator state:
  * `queue` — occupancy of the capacity-1 request channel
    (`make(chan struct{}, 1)`, seeded with one request at line 45);
  * `tickBuf` — occupancy of the ticker's capacity-1 channel (the Go
    ticker drops a tick when its channel is already full);
  * `mode` — where the coordinator is blocked:
      `select`  at the outer select (lines 48-51),
      `running` at the inner select (lines 59-68) tracking worker `w`
                with the cycle deadline,
      `blocked` stuck in the channel send `queue <- struct{}{}` at
                line 50 with the queue already full (no other goroutine
                ever receives from `queue`, so nothing can unblock it);
  * `live` — the worker goroutines whose `runPrune` call has started and
    not yet returned, each tagged with whether the coordinator has
    abandoned it (its deadline fired, line 60);
  * `log` — coordinator log lines, most recent first.
-/

inductive Mode
  | select
  | running (w : Nat) (deadline : Int)
  | blocked
deriving DecidableEq, Repr

structure SchedState where
  now : Int
  queue : Bool
  tickBuf : Bool
  mode : Mode
  nextId : Nat
  live : List (Nat × Bool)
  log : List String
deriving DecidableEq, Repr

/-- logrus's `Error`, `Info`, `Warn` are Sprint-style (non-formatting)
methods: the arguments are concatenated (no space is inserted after a
string operand), with no percent-verb substitution. -/
def sprintPair (s t : String) : String := s ++ t

/-- The line produced by `logger.Error("Error occur: %v", err)` at
main.go line 64. -/
def errorOccurLine (errMsg : String) : String :=
  sprintPair "Error occur: %v" errMsg

/-- The line produced by the inner select on cycle completion:
`logger.Error(...)` on an error, `logger.Info("Finished cleaning")`
otherwise (main.go lines 62-67). -/
def doneLine : Option String → String
  | some m => errorOccurLine m
  | none => "Finished cleaning"

def startLine : String := "Start cleaning up unused data"

/-- `ctx.Err().Error()` for an elapsed `context.WithTimeout` deadline,
logged at main.go line 61. -/
def deadlineLine : String := "context deadline exceeded"

/-- Scheduler events: time passing, the ticker goroutine delivering a
tick, the coordinator choosing a ready select case, the cycle deadline
firing, and a worker's `runPrune` call returning (with `none` for a nil
error or `some msg` for an error). -/
inductive Event
  | advance (d : Nat)
  | tick
  | selectTick
  | selectQueue
  | ctxDone
  | workerDone (w : Nat) (res : Option String)
deriving DecidableEq, Repr

def markAbandoned (l : List (Nat × Bool)) (w : Nat) : List (Nat × Bool) :=
  l.map (fun p => if p.1 = w then (p.1, true) else p)

def removeWorker (l : List (Nat × Bool)) (w : Nat) : List (Nat × Bool) :=
  l.filter (fun p => p.1 != w)

/-- One scheduler step at interval `i` (nanoseconds).  `none` means the
event is not enabled in the given state. -/
def step (i : Int) (s : SchedState) : Event → Option SchedState
  | .advance d => some { s with now := s.now + d }
  | .tick =>
      -- the ticker sends without blocking; a tick finding the ticker
      -- channel full is dropped, which leaves the state unchanged
      some { s with tickBuf := true }
  | .selectTick =>
      if s.mode = Mode.select ∧ s.tickBuf = true then
        if s.queue then
          -- line 50: `queue <- struct{}{}` on the full capacity-1
          -- channel is a blocking send; no goroutine ever receives from
          -- `queue` besides this one, so the coordinator is stuck
          some { s with tickBuf := false, mode := Mode.blocked }
        else
          some { s with tickBuf := false, queue := true }
      else none
  | .selectQueue =>
      -- lines 51-58: dequeue the request, log, arm the deadline
      -- `interval - time.Second` from now, spawn the worker, and wait at
      -- the inner select
      if s.mode = Mode.select ∧ s.queue = true then
        some { s with queue := false,
                      mode := Mode.running s.nextId (s.now + (i - 1000000000)),
                      nextId := s.nextId + 1,
                      live := (s.nextId, false) :: s.live,
                      log := startLine :: s.log }
      else none
  | .ctxDone =>
      -- line 60: the deadline elapsed before the tracked worker finished;
      -- warn and abandon it (it is cancelled only advisorily and keeps
      -- executing until it observes the cancellation)
      match s.mode with
      | Mode.running w dl =>
          if dl ≤ s.now then
            some { s with mode := Mode.select,
                          live := markAbandoned s.live w,
                          log := deadlineLine :: s.log }
          else none
      | _ => none
  | .workerDone w res =>
      if (s.live.map Prod.fst).contains w then
        match s.mode with
        | Mode.running w2 _ =>
            if w = w2 then
              -- line 62: the tracked worker hands its result over errCh
              some { s with mode := Mode.select,
                            live := removeWorker s.live w,
                            log := doneLine res :: s.log }
            else
              -- an abandoned worker finishes; its send on its dead errCh
              -- blocks forever, the coordinator never notices
              some { s with live := removeWorker s.live w }
        | _ => some { s with live := removeWorker s.live w }
      else none

/-- The state after lines 44-45: the request channel seeded with one
request, so the first cycle runs immediately. -/
def initState : SchedState :=
  { now := 0, queue := true, tickBuf := false, mode := Mode.select,
    nextId := 0, live := [], log := [] }

def run (i : Int) (s : SchedState) : List Event → Option SchedState
  | [] => some s
  | e :: es =>
      match step i s e with
      | none => none
      | some s1 => run i s1 es

/-- The live workers the coordinator has not abandoned. -/
def nonAbandoned (s : SchedState) : List (Nat × Bool) :=
  s.live.filter (fun p => !p.2)

/-
  Startup model (main.go lines 14-36): parse each `--filter` flag with
  `filters.ParseFlag`, terminating fatally on the first parse error, then
  establish the engine connection (`client.NewEnvClient`), terminating
  fatally on failure.  Only afterwards is the scheduling loop entered.
-/

structure EngineConn where
  envId : Nat
deriving DecidableEq, Repr

/-- main.go lines 26-31: fold `filters.ParseFlag` over the flag values,
fatal on the first error. -/
def parseFilters (parse : String → FilterMap → Except String FilterMap) :
    List String → FilterMap → Except String FilterMap
  | [], acc => .ok acc
  | f :: fs, acc =>
      match parse f acc with
      | .error e => .error e
      | .ok acc1 => parseFilters parse fs acc1

/-- main.go lines 14-70: startup followed by the scheduling loop.  A
startup failure is the `Except.error` case and no scheduler state (hence
no cycle) ever arises; otherwise the loop processes the given events. -/
def mainModel (parse : String → FilterMap → Except String FilterMap)
    (flags : List String) (envClient : Except String EngineConn)
    (i : Int) (evs : List Event) : Except String (Option SchedState) :=
  match parseFilters parse flags [] with
  | .error e => .error e
  | .ok _ =>
      match envClient with
      | .error e => .error e
      | .ok _ => .ok (run i initState evs)

/- Helper lemmas about list indexing through `getD`. -/

lemma getD_append_left {α : Type} (d : α) :
    ∀ (l1 l2 : List α) (i : Nat), i < l1.length → (l1 ++ l2).getD i d = l1.getD i d := by
  intro l1
  induction l1 with
  | nil => intro l2 i hi; simp at hi
  | cons x t ih =>
      intro l2 i hi
      cases i with
      | zero => rfl
      | succ j =>
          simp only [List.cons_append, List.getD_cons_succ]
          exact ih l2 j (by simpa using hi)

lemma getD_concat_self {α : Type} (d : α) :
    ∀ (l : List α) (m : α), (l ++ [m]).getD l.length d = m := by
  intro l
  induction l with
  | nil => intro m; rfl
  | cons x t ih => intro m; simp only [List.cons_append, List.length_cons, List.getD_cons_succ]; exact ih m

lemma getD_set_self {α : Type} (d : α) :
    ∀ (l : List α) (i : Nat) (m : α), i < l.length → (l.set i m).getD i d = m := by
  intro l
  induction l with
  | nil => intro i m hi; simp at hi
  | cons x t ih =>
      intro i m hi
      cases i with
      | zero => rfl
      | succ j =>
          simp only [List.set, List.getD_cons_succ]
          exact ih j m (by simpa using hi)

lemma getD_set_other {α : Type} (d : α) :
    ∀ (l : List α) (i j : Nat) (m : α), i ≠ j → (l.set i m).getD j d = l.getD j d := by
  intro l
  induction l with
  | nil => intro i j m _; simp [List.set]
  | cons x t ih =>
      intro i j m hij
      cases i with
      | zero =>
          cases j with
          | zero => exact absurd rfl hij
          | succ j2 => rfl
      | succ i2 =>
          cases j with
          | zero => rfl
          | succ j2 =>
              simp only [List.set, List.getD_cons_succ]
              exact ih i2 j2 m (by omega)

/- Characterization of `cloneArgs` and `pruneImages`. -/

/-- The filter map `cloneArgs` stores in the fresh cell: the serialize /
reparse round trip of the source map, errors of both steps discarded. -/
def roundTrip (c : Codec) (m : FilterMap) : FilterMap :=
  (c.fromParam (c.toParam m).1).1

/-- Outcome `pruneImages` produces from the engine's response to the map
it passed. -/
def imageOutcome (e : Engine) (m : FilterMap) : Except String (Nat × String) :=
  match e.imagesPrune m with
  | .error err => .error err
  | .ok r => .ok (r.spaceReclaimed, imagesMsg r.deleted.length r.spaceReclaimed)

lemma pruneImages_eq (e : Engine) (c : Codec) (h : FHeap) (all : Bool) (a : Args) :
    pruneImages e c h all a =
      (⟨(h.cells ++ [roundTrip c (h.read a)]).set h.cells.length
          (addPair (roundTrip c (h.read a)) "dangling" (danglingVal all))⟩,
       [⟨Op.images, addPair (roundTrip c (h.read a)) "dangling" (danglingVal all)⟩],
       imageOutcome e (addPair (roundTrip c (h.read a)) "dangling" (danglingVal all))) := by
  have hread : FHeap.read ⟨h.cells ++ [roundTrip c (h.read a)]⟩ ⟨h.cells.length⟩ =
      roundTrip c (h.read a) := by
    simp only [FHeap.read]
    exact getD_concat_self [] h.cells (roundTrip c (h.read a))
  have hread2 : FHeap.read
      ⟨(h.cells ++ [roundTrip c (h.read a)]).set h.cells.length
        (addPair (roundTrip c (h.read a)) "dangling" (danglingVal all))⟩
      ⟨h.cells.length⟩ =
      addPair (roundTrip c (h.read a)) "dangling" (danglingVal all) := by
    simp only [FHeap.read]
    exact getD_set_self [] _ _ _ (by simp)
  simp only [pruneImages, cloneArgs, FHeap.alloc, FHeap.addFilter, imageOutcome, roundTrip] at *
  rw [hread, hread2]
  generalize e.imagesPrune
      (addPair (c.fromParam (c.toParam (h.read a)).1).1 "dangling" (danglingVal all)) = res
  cases res <;> rfl

lemma pruneImages_read_preserved (e : Engine) (c : Codec) (h : FHeap) (all : Bool)
    (a b : Args) (hb : b.ref < h.cells.length) :
    (pruneImages e c h all a).1.read b = h.read b := by
  rw [pruneImages_eq]
  simp only [FHeap.read]
  rw [getD_set_other [] _ _ _ _ (by omega), getD_append_left [] _ _ _ hb]

lemma pruneImages_cells_length (e : Engine) (c : Codec) (h : FHeap) (all : Bool) (a : Args) :
    (pruneImages e c h all a).1.cells.length = h.cells.length + 1 := by
  rw [pruneImages_eq]
  simp

/-- A prune helper leaves every already-allocated filter map unchanged (it
may allocate fresh ones), and every engine invocation it makes other than
the image one receives exactly the caller's filter map. -/
def PreservesFilter (fn : PruneFn) : Prop :=
  ∀ (e : Engine) (c : Codec) (h : FHeap) (all : Bool) (a : Args),
    a.ref < h.cells.length →
      ((fn e c h all a).1.read a = h.read a ∧
       a.ref < (fn e c h all a).1.cells.length ∧
       ∀ call ∈ (fn e c h all a).2.1, call.op ≠ Op.images → call.args = h.read a)

lemma pruneContainers_preservesFilter : PreservesFilter pruneContainers := by
  intro e c h all a href
  cases hE : e.containersPrune (h.read a) <;>
    simp [pruneContainers, hE, href]

lemma pruneNetworks_preservesFilter : PreservesFilter pruneNetworks := by
  intro e c h all a href
  cases hE : e.networksPrune (h.read a) <;>
    simp [pruneNetworks, hE, href]

lemma pruneVolumes_preservesFilter : PreservesFilter pruneVolumes := by
  intro e c h all a href
  cases hE : e.volumesPrune (h.read a) <;>
    simp [pruneVolumes, hE, href]

lemma pruneImages_preservesFilter : PreservesFilter pruneImages := by
  intro e c h all a href
  refine ⟨pruneImages_read_preserved e c h all a a href, ?_, ?_⟩
  · rw [pruneImages_cells_length]; omega
  · rw [pruneImages_eq]
    intro call hcall hop
    simp at hcall
    rw [hcall] at hop
    simp at hop

lemma runPruneLoop_preserves :
    ∀ (fns : List PruneFn), (∀ fn ∈ fns, PreservesFilter fn) →
    ∀ (e : Engine) (c : Codec) (h : FHeap) (all : Bool) (a : Args)
      (total : Nat) (calls : List Call) (logs : List String),
      a.ref < h.cells.length →
      (∀ call ∈ calls, call.op ≠ Op.images → call.args = h.read a) →
      ((runPruneLoop fns e c h all a total calls logs).1.read a = h.read a ∧
       ∀ call ∈ (runPruneLoop fns e c h all a total calls logs).2.1,
         call.op ≠ Op.images → call.args = h.read a) := by
  intro fns
  induction fns with
  | nil =>
      intro _ e c h all a total calls logs _ hcalls
      exact ⟨rfl, hcalls⟩
  | cons f fs ih =>
      intro hfns e c h all a total calls logs href hcalls
      have hf := hfns f (List.mem_cons_self f fs)
      obtain ⟨ht1, ht2, ht3⟩ := hf e c h all a href
      rcases hE : f e c h all a with ⟨h1, cs, res⟩
      rw [hE] at ht1 ht2 ht3
      simp only at ht1 ht2 ht3
      have hccs : ∀ call ∈ calls ++ cs, call.op ≠ Op.images → call.args = h1.read a := by
        intro call hcall hop
        rw [ht1]
        rcases List.mem_append.mp hcall with hmem | hmem
        · exact hcalls call hmem hop
        · exact ht3 call hmem hop
      cases res with
      | error err =>
          simp only [runPruneLoop, hE]
          constructor
          · exact ht1
          · intro call hcall hop
            rw [← ht1]
            exact hccs call hcall hop
      | ok p =>
          rcases p with ⟨sp, out⟩
          simp only [runPruneLoop, hE]
          have := ih (fun fn hfn => hfns fn (List.mem_cons_of_mem f hfn))
            e c h1 all a ((total + sp) % 2 ^ 64) (calls ++ cs) (logs ++ [out]) (by omega) hccs
          rw [ht1] at this
          exact this

/- Concrete instances used by witnesses: the worked example of the spec
(filter `label=env=staging`, `all=false`; containers reclaim 1000 bytes,
images 2000, networks 0, volumes 500). -/

def stagingMap : FilterMap := [("label", "env=staging")]

/-- A concrete codec that round-trips the staging filter map and fails on
nothing. -/
def tableCodec : Codec :=
  { toParam := fun m => (if m = stagingMap then "S" else "", none),
    fromParam := fun s => (if s = "S" then stagingMap else [], none) }

def heapS : FHeap := ⟨[stagingMap]⟩

def argS : Args := ⟨0⟩

def exampleEngine : Engine :=
  { containersPrune := fun _ => .ok ⟨["c1", "c2", "c3", "c4", "c5"], 1000⟩,
    imagesPrune := fun _ => .ok ⟨["i1", "i2"], 2000⟩,
    networksPrune := fun _ => .ok ⟨["n1"], 0⟩,
    volumesPrune := fun _ => .ok ⟨["v1", "v2", "v3"], 500⟩ }

/-- C3: for every filter set `F` and flag `all`, the image-prune operation
invokes the engine's image-prune capability with `F` extended by the
criterion `dangling=true` when `all=false` and `dangling=false` when
`all=true` (given that the external serialize/reparse round trip used by
`cloneArgs` reproduces `F`, as docker's JSON codec does), and its outcome
is exactly the engine's response to that extended filter set. -/
theorem image_prune_receives_dangling
    (e : Engine) (c : Codec) (h : FHeap) (all : Bool) (a : Args)
    (hrt : roundTrip c (h.read a) = h.read a) :
    (pruneImages e c h all a).2.1 =
      [⟨Op.images, addPair (h.read a) "dangling" (danglingVal all)⟩] ∧
    (pruneImages e c h all a).2.2 =
      imageOutcome e (addPair (h.read a) "dangling" (danglingVal all)) := by
  rw [pruneImages_eq, hrt]
  exact ⟨rfl, rfl⟩

theorem image_prune_receives_dangling_witness :
    (pruneImages exampleEngine tableCodec heapS false argS).2.1 =
      [⟨Op.images, addPair (heapS.read argS) "dangling" (danglingVal false)⟩] ∧
    (pruneImages exampleEngine tableCodec heapS false argS).2.2 =
      imageOutcome exampleEngine (addPair (heapS.read argS) "dangling" (danglingVal false)) :=
  image_prune_receives_dangling exampleEngine tableCodec heapS false argS (by decide)

/-- C4: a prune cycle never mutates the caller's filter set `F`: after
`runPrune` the map `F` points to is unchanged, and every engine invocation
other than the image one (containers, networks, volumes — whether made
before or after the image call) receives exactly `F`. -/
theorem filter_set_not_mutated_by_cycle
    (e : Engine) (c : Codec) (h : FHeap) (all : Bool) (a : Args)
    (href : a.ref < h.cells.length) :
    (runPrune e c h all a).1.read a = h.read a ∧
    ∀ call ∈ (runPrune e c h all a).2.1,
      call.op ≠ Op.images → call.args = h.read a := by
  have hall : ∀ fn ∈ pruneFuncs, PreservesFilter fn := by
    intro fn hfn
    simp only [pruneFuncs, List.mem_cons, List.not_mem_nil, or_false] at hfn
    rcases hfn with h1 | h1 | h1 | h1 <;> rw [h1]
    · exact pruneContainers_preservesFilter
    · exact pruneImages_preservesFilter
    · exact pruneNetworks_preservesFilter
    · exact pruneVolumes_preservesFilter
  exact runPruneLoop_preserves pruneFuncs hall e c h all a 0 [] [] href (by simp)

theorem filter_set_not_mutated_by_cycle_witness :
    (runPrune exampleEngine tableCodec heapS false argS).1.read argS = heapS.read argS :=
  (filter_set_not_mutated_by_cycle exampleEngine tableCodec heapS false argS (by decide)).1

/- Step-unfolding lemmas for `runPruneLoop`. -/

lemma runPruneLoop_cons_error {f : PruneFn} {fs : List PruneFn} {e : Engine} {c : Codec}
    {h h1 : FHeap} {all : Bool} {a : Args} {cs : List Call} {err : String}
    (total : Nat) (calls : List Call) (logs : List String)
    (hE : f e c h all a = (h1, cs, Except.error err)) :
    runPruneLoop (f :: fs) e c h all a total calls logs = (h1, calls ++ cs, logs, Except.error err) := by
  simp [runPruneLoop, hE]

lemma runPruneLoop_cons_ok {f : PruneFn} {fs : List PruneFn} {e : Engine} {c : Codec}
    {h h1 : FHeap} {all : Bool} {a : Args} {cs : List Call} {sp : Nat} {out : String}
    (total : Nat) (calls : List Call) (logs : List String)
    (hE : f e c h all a = (h1, cs, Except.ok (sp, out))) :
    runPruneLoop (f :: fs) e c h all a total calls logs =
      runPruneLoop fs e c h1 all a ((total + sp) % 2 ^ 64) (calls ++ cs) (logs ++ [out]) := by
  simp [runPruneLoop, hE]

lemma pruneContainers_error {e : Engine} {c : Codec} {h : FHeap} {all : Bool} {a : Args}
    {E : String} (hE : e.containersPrune (h.read a) = .error E) :
    pruneContainers e c h all a = (h, [⟨Op.containers, h.read a⟩], Except.error E) := by
  simp [pruneContainers, hE]

lemma pruneContainers_ok {e : Engine} {c : Codec} {h : FHeap} {all : Bool} {a : Args}
    {r : PruneReport} (hE : e.containersPrune (h.read a) = .ok r) :
    pruneContainers e c h all a =
      (h, [⟨Op.containers, h.read a⟩],
       Except.ok (r.spaceReclaimed, containersMsg r.deleted.length r.spaceReclaimed)) := by
  simp [pruneContainers, hE]

lemma pruneNetworks_error {e : Engine} {c : Codec} {h : FHeap} {all : Bool} {a : Args}
    {E : String} (hE : e.networksPrune (h.read a) = .error E) :
    pruneNetworks e c h all a = (h, [⟨Op.networks, h.read a⟩], Except.error E) := by
  simp [pruneNetworks, hE]

lemma pruneNetworks_ok {e : Engine} {c : Codec} {h : FHeap} {all : Bool} {a : Args}
    {r : PruneReport} (hE : e.networksPrune (h.read a) = .ok r) :
    pruneNetworks e c h all a =
      (h, [⟨Op.networks, h.read a⟩], Except.ok (0, networksMsg r.deleted.length)) := by
  simp [pruneNetworks, hE]

lemma pruneVolumes_error {e : Engine} {c : Codec} {h : FHeap} {all : Bool} {a : Args}
    {E : String} (hE : e.volumesPrune (h.read a) = .error E) :
    pruneVolumes e c h all a = (h, [⟨Op.volumes, h.read a⟩], Except.error E) := by
  simp [pruneVolumes, hE]

lemma pruneVolumes_ok {e : Engine} {c : Codec} {h : FHeap} {all : Bool} {a : Args}
    {r : PruneReport} (hE : e.volumesPrune (h.read a) = .ok r) :
    pruneVolumes e c h all a =
      (h, [⟨Op.volumes, h.read a⟩],
       Except.ok (r.spaceReclaimed, volumesMsg r.deleted.length r.spaceReclaimed)) := by
  simp [pruneVolumes, hE]

/-- The heap `pruneImages` leaves behind when the codec round trip
reproduces the source map: the original cells, a fresh cell holding the
clone, and the `dangling` criterion added to that fresh cell. -/
def imagesHeap (h : FHeap) (all : Bool) (a : Args) : FHeap :=
  ⟨(h.cells ++ [h.read a]).set h.cells.length
    (addPair (h.read a) "dangling" (danglingVal all))⟩

lemma imagesHeap_read (h : FHeap) (all : Bool) (a : Args) (href : a.ref < h.cells.length) :
    (imagesHeap h all a).read a = h.read a := by
  simp only [imagesHeap, FHeap.read]
  rw [getD_set_other [] _ _ _ _ (by omega), getD_append_left [] _ _ _ href]

lemma pruneImages_error {e : Engine} {c : Codec} {h : FHeap} {all : Bool} {a : Args}
    {E : String} (hrt : roundTrip c (h.read a) = h.read a)
    (hE : e.imagesPrune (addPair (h.read a) "dangling" (danglingVal all)) = .error E) :
    pruneImages e c h all a =
      (imagesHeap h all a, [⟨Op.images, addPair (h.read a) "dangling" (danglingVal all)⟩],
       Except.error E) := by
  rw [pruneImages_eq, hrt]
  simp [imagesHeap, imageOutcome, hE]

lemma pruneImages_ok {e : Engine} {c : Codec} {h : FHeap} {all : Bool} {a : Args}
    {r : PruneReport} (hrt : roundTrip c (h.read a) = h.read a)
    (hE : e.imagesPrune (addPair (h.read a) "dangling" (danglingVal all)) = .ok r) :
    pruneImages e c h all a =
      (imagesHeap h all a, [⟨Op.images, addPair (h.read a) "dangling" (danglingVal all)⟩],
       Except.ok (r.spaceReclaimed, imagesMsg r.deleted.length r.spaceReclaimed)) := by
  rw [pruneImages_eq, hrt]
  simp [imagesHeap, imageOutcome, hE]

/-- C5: if a prune operation fails with error `E`, the executor aborts the
cycle at once: the operations after the failing one are never invoked (in
particular a container-prune failure means no image, network or volume
call at all), the cycle's result is exactly `Except.error E`, and no
total line is logged.  (`hrt`/`href`: the codec round-trips the filter set
and its handle is allocated, as in the real program.) -/
theorem prune_failure_aborts_cycle
    (e : Engine) (c : Codec) (h : FHeap) (all : Bool) (a : Args) (E : String)
    (r1 r2 r3 : PruneReport)
    (hrt : roundTrip c (h.read a) = h.read a)
    (href : a.ref < h.cells.length) :
    (e.containersPrune (h.read a) = .error E →
       runPrune e c h all a = (h, [⟨Op.containers, h.read a⟩], [], Except.error E)) ∧
    (e.containersPrune (h.read a) = .ok r1 →
     e.imagesPrune (addPair (h.read a) "dangling" (danglingVal all)) = .error E →
       (runPrune e c h all a).2.1 =
         [⟨Op.containers, h.read a⟩,
          ⟨Op.images, addPair (h.read a) "dangling" (danglingVal all)⟩] ∧
       (runPrune e c h all a).2.2.1 = [containersMsg r1.deleted.length r1.spaceReclaimed] ∧
       (runPrune e c h all a).2.2.2 = Except.error E) ∧
    (e.containersPrune (h.read a) = .ok r1 →
     e.imagesPrune (addPair (h.read a) "dangling" (danglingVal all)) = .ok r2 →
     e.networksPrune (h.read a) = .error E →
       (runPrune e c h all a).2.1 =
         [⟨Op.containers, h.read a⟩,
          ⟨Op.images, addPair (h.read a) "dangling" (danglingVal all)⟩,
          ⟨Op.networks, h.read a⟩] ∧
       (runPrune e c h all a).2.2.1 =
         [containersMsg r1.deleted.length r1.spaceReclaimed,
          imagesMsg r2.deleted.length r2.spaceReclaimed] ∧
       (runPrune e c h all a).2.2.2 = Except.error E) ∧
    (e.containersPrune (h.read a) = .ok r1 →
     e.imagesPrune (addPair (h.read a) "dangling" (danglingVal all)) = .ok r2 →
     e.networksPrune (h.read a) = .ok r3 →
     e.volumesPrune (h.read a) = .error E →
       (runPrune e c h all a).2.1 =
         [⟨Op.containers, h.read a⟩,
          ⟨Op.images, addPair (h.read a) "dangling" (danglingVal all)⟩,
          ⟨Op.networks, h.read a⟩, ⟨Op.volumes, h.read a⟩] ∧
       (runPrune e c h all a).2.2.1 =
         [containersMsg r1.deleted.length r1.spaceReclaimed,
          imagesMsg r2.deleted.length r2.spaceReclaimed,
          networksMsg r3.deleted.length] ∧
       (runPrune e c h all a).2.2.2 = Except.error E) := by
  have hread2 := imagesHeap_read h all a href
  refine ⟨?_, ?_, ?_, ?_⟩
  · intro hc
    simp only [runPrune, pruneFuncs]
    rw [runPruneLoop_cons_error 0 [] [] (pruneContainers_error hc)]
    simp
  · intro hc hi
    simp only [runPrune, pruneFuncs]
    rw [runPruneLoop_cons_ok 0 [] [] (pruneContainers_ok hc),
        runPruneLoop_cons_error _ _ _ (pruneImages_error hrt hi)]
    simp
  · intro hc hi hn
    have hn2 : e.networksPrune ((imagesHeap h all a).read a) = .error E := by
      rw [hread2]; exact hn
    simp only [runPrune, pruneFuncs]
    rw [runPruneLoop_cons_ok 0 [] [] (pruneContainers_ok hc),
        runPruneLoop_cons_ok _ _ _ (pruneImages_ok hrt hi),
        runPruneLoop_cons_error _ _ _ (pruneNetworks_error hn2)]
    simp [hread2]
  · intro hc hi hn hv
    have hn2 : e.networksPrune ((imagesHeap h all a).read a) = .ok r3 := by
      rw [hread2]; exact hn
    have hv2 : e.volumesPrune ((imagesHeap h all a).read a) = .error E := by
      rw [hread2]; exact hv
    simp only [runPrune, pruneFuncs]
    rw [runPruneLoop_cons_ok 0 [] [] (pruneContainers_ok hc),
        runPruneLoop_cons_ok _ _ _ (pruneImages_ok hrt hi),
        runPruneLoop_cons_ok _ _ _ (pruneNetworks_ok hn2),
        runPruneLoop_cons_error _ _ _ (pruneVolumes_error hv2)]
    simp [hread2]

def containersFailEngine : Engine :=
  { containersPrune := fun _ => .error "engine exploded",
    imagesPrune := fun _ => .ok ⟨[], 0⟩,
    networksPrune := fun _ => .ok ⟨[], 0⟩,
    volumesPrune := fun _ => .ok ⟨[], 0⟩ }

theorem prune_failure_aborts_cycle_witness :
    runPrune containersFailEngine tableCodec heapS false argS =
      (heapS, [⟨Op.containers, heapS.read argS⟩], [], Except.error "engine exploded") :=
  (prune_failure_aborts_cycle containersFailEngine tableCodec heapS false argS
      "engine exploded" ⟨[], 0⟩ ⟨[], 0⟩ ⟨[], 0⟩ (by decide) (by decide)).1 rfl

/-- C6 (amended): on full success the four operations are invoked in the
fixed order containers, images, networks, volumes; the network operation
contributes `0` bytes regardless of the byte count in the engine's
report; and the logged total is `(c + i + v) % 2 ^ 64` — the running
total is a Go `uint64`, so it equals `c + i + v` exactly when that sum is
below `2 ^ 64`. -/
theorem success_reports_wrapped_total
    (e : Engine) (c : Codec) (h : FHeap) (all : Bool) (a : Args)
    (rc ri rn rv : PruneReport)
    (hrt : roundTrip c (h.read a) = h.read a)
    (href : a.ref < h.cells.length)
    (hc : e.containersPrune (h.read a) = .ok rc)
    (hi : e.imagesPrune (addPair (h.read a) "dangling" (danglingVal all)) = .ok ri)
    (hn : e.networksPrune (h.read a) = .ok rn)
    (hv : e.volumesPrune (h.read a) = .ok rv) :
    (runPrune e c h all a).2.1 =
      [⟨Op.containers, h.read a⟩,
       ⟨Op.images, addPair (h.read a) "dangling" (danglingVal all)⟩,
       ⟨Op.networks, h.read a⟩, ⟨Op.volumes, h.read a⟩] ∧
    (runPrune e c h all a).2.2.1 =
      [containersMsg rc.deleted.length rc.spaceReclaimed,
       imagesMsg ri.deleted.length ri.spaceReclaimed,
       networksMsg rn.deleted.length,
       volumesMsg rv.deleted.length rv.spaceReclaimed,
       totalMsg ((rc.spaceReclaimed + ri.spaceReclaimed + rv.spaceReclaimed) % 2 ^ 64)] ∧
    (runPrune e c h all a).2.2.2 = Except.ok () := by
  have hread2 := imagesHeap_read h all a href
  have hn2 : e.networksPrune ((imagesHeap h all a).read a) = .ok rn := by
    rw [hread2]; exact hn
  have hv2 : e.volumesPrune ((imagesHeap h all a).read a) = .ok rv := by
    rw [hread2]; exact hv
  have htot : ((((0 + rc.spaceReclaimed) % 2 ^ 64 + ri.spaceReclaimed) % 2 ^ 64 + 0) % 2 ^ 64
        + rv.spaceReclaimed) % 2 ^ 64 =
      (rc.spaceReclaimed + ri.spaceReclaimed + rv.spaceReclaimed) % 2 ^ 64 := by
    simp [Nat.mod_add_mod]
  simp only [runPrune, pruneFuncs]
  rw [runPruneLoop_cons_ok 0 [] [] (pruneContainers_ok hc),
      runPruneLoop_cons_ok _ _ _ (pruneImages_ok hrt hi),
      runPruneLoop_cons_ok _ _ _ (pruneNetworks_ok hn2),
      runPruneLoop_cons_ok _ _ _ (pruneVolumes_ok hv2)]
  simp [runPruneLoop, hread2, htot]

/-- An engine whose container and image prunes each reclaim `2 ^ 63`
bytes: perfectly legal `uint64` report values whose sum overflows. -/
def bigEngine : Engine :=
  { containersPrune := fun _ => .ok ⟨[], 9223372036854775808⟩,
    imagesPrune := fun _ => .ok ⟨[], 9223372036854775808⟩,
    networksPrune := fun _ => .ok ⟨["n1"], 7⟩,
    volumesPrune := fun _ => .ok ⟨[], 0⟩ }

/-- C6 counterexample: with `c = i = 2 ^ 63` and `v = 0` the `uint64`
running total wraps, and the logged total line is `totalMsg 0`, not the
`totalMsg (c + i + v)` the claim requires. -/
theorem uint64_total_wrap_counterexample :
    (runPrune bigEngine tableCodec heapS false argS).2.2.1 =
      [containersMsg 0 9223372036854775808, imagesMsg 0 9223372036854775808,
       networksMsg 1, volumesMsg 0 0, totalMsg 0] ∧
    totalMsg 0 ≠ totalMsg (9223372036854775808 + 9223372036854775808 + 0) := by
  exact ⟨by decide, by decide⟩

theorem success_reports_wrapped_total_witness :
    (runPrune exampleEngine tableCodec heapS false argS).2.2.1 =
      [containersMsg 5 1000, imagesMsg 2 2000, networksMsg 1, volumesMsg 3 500,
       totalMsg ((1000 + 2000 + 500) % 2 ^ 64)] ∧
    (runPrune exampleEngine tableCodec heapS false argS).2.2.2 = Except.ok () :=
  ⟨(success_reports_wrapped_total exampleEngine tableCodec heapS false argS
      ⟨["c1", "c2", "c3", "c4", "c5"], 1000⟩ ⟨["i1", "i2"], 2000⟩ ⟨["n1"], 0⟩
      ⟨["v1", "v2", "v3"], 500⟩ (by decide) (by decide) rfl rfl rfl rfl).2.1,
   (success_reports_wrapped_total exampleEngine tableCodec heapS false argS
      ⟨["c1", "c2", "c3", "c4", "c5"], 1000⟩ ⟨["i1", "i2"], 2000⟩ ⟨["n1"], 0⟩
      ⟨["v1", "v2", "v3"], 500⟩ (by decide) (by decide) rfl rfl rfl rfl).2.2⟩

lemma cloneArgs_read (c : Codec) (h : FHeap) (a : Args) :
    (cloneArgs c h a).1.read (cloneArgs c h a).2 = roundTrip c (h.read a) := by
  simp only [cloneArgs, FHeap.alloc, FHeap.read, roundTrip]
  exact getD_concat_self [] h.cells _

/-- C10: when serializing the filter set to its parameter form fails, or
reparsing that form fails, `cloneArgs` silently yields the empty filter
set (the codec's error-with-zero-value contract `Codec.errZero`): the
image prune then proceeds with only the `dangling` criterion, every
user-supplied filter dropped, and its outcome is exactly the engine's
response — no codec error reaches the caller or the cycle result. -/
theorem cloneArgs_failure_drops_filters
    (e : Engine) (c : Codec) (h : FHeap) (all : Bool) (a : Args)
    (hz : c.errZero)
    (hfail : ((c.toParam (h.read a)).2).isSome = true ∨
             ((c.fromParam (c.toParam (h.read a)).1).2).isSome = true) :
    (cloneArgs c h a).1.read (cloneArgs c h a).2 = [] ∧
    (pruneImages e c h all a).2.1 = [⟨Op.images, [("dangling", danglingVal all)]⟩] ∧
    (pruneImages e c h all a).2.2 = imageOutcome e [("dangling", danglingVal all)] := by
  obtain ⟨hto, ⟨hemp1, _⟩, hfrom⟩ := hz
  have hrt : roundTrip c (h.read a) = [] := by
    rcases hfail with hf | hf
    · have hs := hto (h.read a) hf
      simp only [roundTrip, hs, hemp1]
    · exact hfrom _ hf
  have hadd : addPair [] "dangling" (danglingVal all) = [("dangling", danglingVal all)] := by
    simp [addPair]
  refine ⟨?_, ?_, ?_⟩
  · rw [cloneArgs_read, hrt]
  · rw [pruneImages_eq, hrt]
    simp [hadd]
  · rw [pruneImages_eq, hrt]
    simp [hadd]

/-- A codec whose serialization step always fails (returning the Go zero
value `""` with its error). -/
def failCodec : Codec :=
  { toParam := fun _ => ("", some "marshal failed"),
    fromParam := fun _ => ([], none) }

theorem cloneArgs_failure_drops_filters_witness :
    (cloneArgs failCodec heapS argS).1.read (cloneArgs failCodec heapS argS).2 = [] ∧
    (pruneImages exampleEngine failCodec heapS false argS).2.1 =
      [⟨Op.images, [("dangling", danglingVal false)]⟩] ∧
    (pruneImages exampleEngine failCodec heapS false argS).2.2 =
      imageOutcome exampleEngine [("dangling", danglingVal false)] :=
  cloneArgs_failure_drops_filters exampleEngine failCodec heapS false argS
    ⟨fun _ _ => rfl, ⟨rfl, rfl⟩, fun _ hx => by simp [failCodec] at hx⟩ (Or.inl rfl)

/-- C9: on a cycle error the coordinator passes the literal format string
`"Error occur: %v"` together with the error message to logrus's
non-formatting `Error` method (Sprint semantics, `sprintPair`), so the
logged line still contains the literal `%v` with the error text appended
after it — it is never the correctly interpolated
`"Error occur: " ++ m`. -/
theorem error_report_not_interpolated (m : String) :
    errorOccurLine m = sprintPair "Error occur: %v" m ∧
    errorOccurLine m = "Error occur: %v" ++ m ∧
    errorOccurLine m ≠ "Error occur: " ++ m ∧
    doneLine (some m) = errorOccurLine m := by
  refine ⟨rfl, rfl, ?_, rfl⟩
  intro hcontra
  have hlen := congrArg String.length hcontra
  rw [errorOccurLine, sprintPair, String.length_append, String.length_append] at hlen
  have h1 : ("Error occur: %v").length = 15 := by decide
  have h2 : ("Error occur: ").length = 13 := by decide
  omega

/-- C7: whenever the coordinator dequeues the pending request (the
`selectQueue` step at main.go lines 51-58), the Cycle Execution it starts
is tracked with a deadline of exactly `interval − 1 second`
(`i - 1000000000` ns) from the moment of the dequeue. -/
theorem cycle_deadline_interval_minus_second
    (i : Int) (s s1 : SchedState)
    (hstep : step i s Event.selectQueue = some s1) :
    s1.mode = Mode.running s.nextId (s.now + (i - 1000000000)) := by
  simp only [step] at hstep
  split at hstep
  · simp only [Option.some.injEq] at hstep
    rw [← hstep]
  · exact absurd hstep (by simp)

theorem cycle_deadline_interval_minus_second_witness :
    (((step 86400000000000 initState Event.selectQueue).getD initState)).mode =
      Mode.running initState.nextId (initState.now + (86400000000000 - 1000000000)) :=
  cycle_deadline_interval_minus_second 86400000000000 initState
    ((step 86400000000000 initState Event.selectQueue).getD initState) rfl

/-- C1 (documenting the divergence): a timer tick that becomes ready while
the request queue still holds a request is NOT discarded — the
coordinator that picks the ticker select case executes the blocking send
`queue <- struct{}{}` of line 50 on the full capacity-1 channel and, as
no other goroutine receives from `queue`, is stuck there forever: from
the `blocked` state every still-enabled event leaves it `blocked`.  (The
spec requires the redundant signal to be dropped without blocking.) -/
theorem tick_with_pending_request_blocks_forever :
    run 1 initState [Event.tick, Event.selectTick] =
      some { now := 0, queue := true, tickBuf := false, mode := Mode.blocked,
             nextId := 0, live := [], log := [] } ∧
    ∀ e : Event,
      ((step 1 { now := 0, queue := true, tickBuf := false, mode := Mode.blocked,
                 nextId := 0, live := [], log := [] } e).map SchedState.mode).getD
        Mode.blocked = Mode.blocked := by
  refine ⟨rfl, ?_⟩
  intro e
  cases e <;> simp [step]

/- List lemmas about the live-worker bookkeeping. -/

lemma filter_live_markAbandoned (l : List (Nat × Bool)) (w : Nat) :
    (markAbandoned l w).filter (fun p => !p.2) =
      (l.filter (fun p => !p.2)).filter (fun p => p.1 != w) := by
  induction l with
  | nil => rfl
  | cons p t ih =>
      obtain ⟨v, b⟩ := p
      by_cases hv : v = w
      · subst hv
        cases b <;> simp [markAbandoned, List.filter_cons] at ih ⊢ <;> exact ih
      · cases b <;>
          simp [markAbandoned, List.filter_cons, hv] at ih ⊢ <;> exact ih

lemma filter_live_removeWorker (l : List (Nat × Bool)) (w : Nat) :
    (removeWorker l w).filter (fun p => !p.2) =
      (l.filter (fun p => !p.2)).filter (fun p => p.1 != w) := by
  induction l with
  | nil => rfl
  | cons p t ih =>
      obtain ⟨v, b⟩ := p
      by_cases hv : v = w
      · subst hv
        cases b <;> simp [removeWorker, List.filter_cons] at ih ⊢ <;> exact ih
      · cases b <;>
          simp [removeWorker, List.filter_cons, hv] at ih ⊢ <;> exact ih

/-- The live workers the coordinator expects given where it stands: the
tracked worker while it waits at the inner select, nobody otherwise. -/
def trackedOf : Mode → List (Nat × Bool)
  | Mode.running w _ => [(w, false)]
  | _ => []

/-- Scheduler invariant: the non-abandoned live workers are exactly the
ones the coordinator tracks. -/
def SchedInv (s : SchedState) : Prop :=
  nonAbandoned s = trackedOf s.mode

lemma trackedOf_length (m : Mode) : (trackedOf m).length ≤ 1 := by
  cases m <;> simp [trackedOf]

lemma trackedOf_select : trackedOf Mode.select = [] := rfl

lemma trackedOf_blocked : trackedOf Mode.blocked = [] := rfl

lemma trackedOf_running (w : Nat) (dl : Int) : trackedOf (Mode.running w dl) = [(w, false)] := rfl

lemma step_preserves_inv {i : Int} {s s1 : SchedState} {e : Event}
    (hinv : SchedInv s) (hstep : step i s e = some s1) : SchedInv s1 := by
  cases e with
  | advance d =>
      simp only [step, Option.some.injEq] at hstep
      rw [← hstep]
      exact hinv
  | tick =>
      simp only [step, Option.some.injEq] at hstep
      rw [← hstep]
      exact hinv
  | selectTick =>
      simp only [step] at hstep
      split at hstep
      · rename_i hc
        rw [SchedInv, hc.1, trackedOf_select, nonAbandoned] at hinv
        split at hstep
        · simp only [Option.some.injEq] at hstep
          rw [← hstep]
          simp only [SchedInv, nonAbandoned, trackedOf_blocked]
          exact hinv
        · simp only [Option.some.injEq] at hstep
          rw [← hstep]
          simp only [SchedInv, nonAbandoned, hc.1, trackedOf_select]
          exact hinv
      · exact absurd hstep (by simp)
  | selectQueue =>
      simp only [step] at hstep
      split at hstep
      · rename_i hc
        rw [SchedInv, hc.1, trackedOf_select, nonAbandoned] at hinv
        simp only [Option.some.injEq] at hstep
        rw [← hstep]
        simp only [SchedInv, nonAbandoned, trackedOf_running, List.filter_cons]
        simpa using hinv
      · exact absurd hstep (by simp)
  | ctxDone =>
      simp only [step] at hstep
      split at hstep
      · rename_i w dl hm
        split at hstep
        · simp only [Option.some.injEq] at hstep
          rw [SchedInv, hm, trackedOf_running, nonAbandoned] at hinv
          rw [← hstep]
          simp only [SchedInv, nonAbandoned, trackedOf_select]
          rw [filter_live_markAbandoned, hinv]
          simp
        · exact absurd hstep (by simp)
      · exact absurd hstep (by simp)
  | workerDone w res =>
      simp only [step] at hstep
      split at hstep
      · split at hstep
        · rename_i w2 dl hm
          split at hstep
          · rename_i hw
            simp only [Option.some.injEq] at hstep
            rw [SchedInv, hm, trackedOf_running, nonAbandoned] at hinv
            rw [← hstep]
            simp only [SchedInv, nonAbandoned, trackedOf_select]
            rw [filter_live_removeWorker, hinv, hw]
            simp
          · rename_i hw
            simp only [Option.some.injEq] at hstep
            rw [SchedInv, hm, trackedOf_running, nonAbandoned] at hinv
            rw [← hstep]
            simp only [SchedInv, nonAbandoned, hm, trackedOf_running]
            rw [filter_live_removeWorker, hinv]
            simp [bne_iff_ne, Ne.symm hw]
        · rename_i hnr
          simp only [Option.some.injEq] at hstep
          rw [← hstep]
          rcases hm : s.mode with _ | ⟨w3, dl3⟩ | _
          · rw [SchedInv, hm, trackedOf_select, nonAbandoned] at hinv
            simp only [SchedInv, nonAbandoned, hm, trackedOf_select]
            rw [filter_live_removeWorker, hinv]
            simp
          · exact absurd hm (by intro hcon; exact hnr w3 dl3 hcon)
          · rw [SchedInv, hm, trackedOf_blocked, nonAbandoned] at hinv
            simp only [SchedInv, nonAbandoned, hm, trackedOf_blocked]
            rw [filter_live_removeWorker, hinv]
            simp
      · exact absurd hstep (by simp)

lemma run_preserves_inv :
    ∀ (evs : List Event) (i : Int) (s s1 : SchedState),
      SchedInv s → run i s evs = some s1 → SchedInv s1 := by
  intro evs
  induction evs with
  | nil =>
      intro i s s1 hinv hrun
      simp only [run, Option.some.injEq] at hrun
      rw [← hrun]
      exact hinv
  | cons e es ih =>
      intro i s s1 hinv hrun
      simp only [run] at hrun
      rcases hE : step i s e with _ | s2
      · rw [hE] at hrun; exact absurd hrun (by simp)
      · rw [hE] at hrun
        exact ih i s2 s1 (step_preserves_inv hinv hE) hrun

/-- C2 (amended): in every reachable state of the scheduler at most one
NON-ABANDONED Cycle Execution is live — the coordinator never tracks two
executions at once.  (Only an abandoned, timed-out execution that has not
yet observed its advisory cancellation can overlap a newly started
one.) -/
theorem at_most_one_tracked_execution
    (i : Int) (evs : List Event) (s : SchedState)
    (hrun : run i initState evs = some s) :
    (nonAbandoned s).length ≤ 1 := by
  have hinv : SchedInv s := run_preserves_inv evs i initState s rfl hrun
  rw [SchedInv] at hinv
  rw [hinv]
  exact trackedOf_length s.mode

/-- A realizable schedule with `interval = 2` s: the first cycle's engine
calls outlast the 1 s deadline, the coordinator abandons it, and the next
tick starts a second cycle while the first is still executing. -/
def overlapEvents : List Event :=
  [Event.selectQueue, Event.advance 1000000000, Event.ctxDone,
   Event.tick, Event.selectTick, Event.selectQueue]

/-- C2 counterexample: the scheduler reaches a state in which worker 0 —
timed out, abandoned, its cancellation not yet observed — is still live
while worker 1 is live and tracked: two Cycle Executions run
concurrently, refuting the claim as stated. -/
theorem two_executions_overlap_counterexample :
    (run 2000000000 initState overlapEvents).map SchedState.live =
      some [(1, false), (0, true)] ∧
    (run 2000000000 initState overlapEvents).map SchedState.mode =
      some (Mode.running 1 2000000000) ∧
    ((run 2000000000 initState overlapEvents).map
        (fun s => s.live.length)).getD 0 = 2 :=
  ⟨rfl, rfl, rfl⟩

theorem at_most_one_tracked_execution_witness :
    (nonAbandoned ((run 2000000000 initState overlapEvents).getD initState)).length ≤ 1 :=
  at_most_one_tracked_execution 2000000000 overlapEvents
    ((run 2000000000 initState overlapEvents).getD initState) rfl

/-- C8: error classification.  A malformed filter argument or a failed
engine connection at startup makes `mainModel` terminate with that fatal
error before any scheduler state (hence any cycle) exists; an error
handed back by a cycle's worker is logged (as the coordinator's
`errorOccurLine`) and never terminates the scheduler — the coordinator
returns to the outer select, still able to process the next tick. -/
theorem startup_fatal_cycle_errors_nonfatal
    (parse : String → FilterMap → Except String FilterMap) (flags : List String)
    (env : Except String EngineConn) (i : Int) (evs : List Event)
    (em m : String) (a0 : FilterMap) (s s1 : SchedState) (w : Nat) (dl : Int) :
    (parseFilters parse flags [] = .error em →
       mainModel parse flags env i evs = .error em) ∧
    (parseFilters parse flags [] = .ok a0 → env = .error em →
       mainModel parse flags env i evs = .error em) ∧
    (s.mode = Mode.running w dl →
     step i s (Event.workerDone w (some m)) = some s1 →
       s1.mode = Mode.select ∧ s1.log = errorOccurLine m :: s.log ∧
       (step i s1 Event.tick).isSome = true) := by
  refine ⟨?_, ?_, ?_⟩
  · intro hp
    simp [mainModel, hp]
  · intro hp he
    simp [mainModel, hp, he]
  · intro hm hstep
    simp only [step] at hstep
    split at hstep
    · split at hstep
      · rename_i w2 dl2 hm2
        rw [hm] at hm2
        injection hm2 with hw2 hdl2
        rw [if_pos hw2] at hstep
        simp only [Option.some.injEq] at hstep
        rw [← hstep]
        exact ⟨rfl, rfl, rfl⟩
      · rename_i hnr
        exact absurd hm (fun hcon => hnr w dl hcon)
    · exact absurd hstep (by simp)

def runningSt : SchedState :=
  { now := 0, queue := false, tickBuf := false, mode := Mode.running 0 5,
    nextId := 1, live := [(0, false)], log := [] }

theorem startup_fatal_cycle_errors_nonfatal_witness :
    mainModel (fun _ _ => Except.error "bad filter") ["foo"] (Except.ok ⟨0⟩) 1 [] =
      Except.error "bad filter" ∧
    mainModel (fun _ acc => Except.ok acc) ["foo"] (Except.error "no docker") 1 [] =
      Except.error "no docker" ∧
    (((step 86400000000000 runningSt (Event.workerDone 0 (some "boom"))).getD initState).mode =
        Mode.select ∧
     ((step 86400000000000 runningSt (Event.workerDone 0 (some "boom"))).getD initState).log =
        errorOccurLine "boom" :: runningSt.log ∧
     (step 86400000000000
        ((step 86400000000000 runningSt (Event.workerDone 0 (some "boom"))).getD initState)
        Event.tick).isSome = true) :=
  ⟨(startup_fatal_cycle_errors_nonfatal (fun _ _ => Except.error "bad filter") ["foo"]
      (Except.ok ⟨0⟩) 1 [] "bad filter" "m" [] initState initState 0 0).1 rfl,
   (startup_fatal_cycle_errors_nonfatal (fun _ acc => Except.ok acc) ["foo"]
      (Except.error "no docker") 1 [] "no docker" "m" [] initState initState 0 0).2.1 rfl rfl,
   (startup_fatal_cycle_errors_nonfatal (fun _ _ => Except.error "bad filter") ["foo"]
      (Except.ok ⟨0⟩) 86400000000000 [] "x" "boom" [] runningSt
      ((step 86400000000000 runningSt (Event.workerDone 0 (some "boom"))).getD initState)
      0 5).2.2 rfl rfl⟩

theorem tick_with_pending_request_blocks_forever_witness :
    ((step 1 { now := 0, queue := true, tickBuf := false, mode := Mode.blocked,
               nextId := 0, live := [], log := [] } Event.tick).map SchedState.mode).getD
      Mode.blocked = Mode.blocked :=
  tick_with_pending_request_blocks_forever.2 Event.tick

theorem error_report_not_interpolated_witness :
    errorOccurLine "no space left on device" ≠ "Error occur: " ++ "no space left on device" :=
  (error_report_not_interpolated "no space left on device").2.2.1
